/-
Verification of the typed environment-accessor layer and template render
pipeline of the zep configuration renderer.

The Go source is shallowly embedded:
- a Go `map[string]string` becomes an association list with unique keys
  (`Environment`), insertion replacing an existing binding as Go map
  assignment does;
- a Go `panic` in an accessor becomes an `Except.error`;
- Go `int` values become `Int` with the `strconv.Atoi` 64-bit range check
  made explicit; where Go arithmetic can wrap (`sequence`), results are
  reduced by `wrap64` into [-2^63, 2^63) and the allocation and index
  panics are modelled (runtime allocation-size limits are not);
- `strings.ToLower` / `strings.TrimSpace` are modelled on their ASCII
  behaviour (Go additionally applies Unicode simple case folding and the
  Unicode space class to non-ASCII code points, which no property here
  exercises);
- Go strings at the base64 boundary are byte lists, since Go strings are
  arbitrary byte sequences there.
-/
import Mathlib

namespace Zep

/-- `Environment` from environment.go: a mapping of environment variable keys
to their values, embedded as an association list (unique keys by
construction in `buildEnvMap`). -/
abbrev Environment : Type := List (String × String)

/-- Go map lookup `env[key]`: the `(value, ok)` pair becomes an `Option`. -/
def lookupEnv : Environment → String → Option String
  | [], _ => none
  | (k, v) :: rest, key => if k = key then some v else lookupEnv rest key

/-- Go map assignment `m[k] = v`: replaces an existing binding for `k`,
otherwise appends a new one. -/
def envInsert : Environment → String → String → Environment
  | [], k, v => [(k, v)]
  | (k', v') :: rest, k, v =>
      if k' = k then (k, v) :: rest else (k', v') :: envInsert rest k v

/-- ASCII model of `strings.ToLower`. -/
def go_toLower (s : String) : String :=
  String.mk (s.toList.map Char.toLower)

/-- The white-space class used by `strings.TrimSpace` (`unicode.IsSpace`),
restricted to the Latin-1 code points it lists. -/
def isGoSpace (c : Char) : Bool :=
  c = ' ' ∨ c = '\t' ∨ c = '\n' ∨ c = Char.ofNat 0x0B ∨ c = Char.ofNat 0x0C ∨
    c = '\r' ∨ c = Char.ofNat 0x85 ∨ c = Char.ofNat 0xA0

/-- `strings.TrimSpace`: remove leading and trailing white space. -/
def go_trimSpace (s : String) : String :=
  String.mk (((s.toList.dropWhile isGoSpace).reverse.dropWhile isGoSpace).reverse)

/-- The scan of `strings.Split`: walk the input, and at each position either
match the (non-empty) separator, emitting the chunk accumulated so far, or
move one character into the accumulator. The fuel argument, instantiated to
the input length, only makes the recursion structural: every step consumes
at least one character. -/
def go_splitCore (sep : List Char) : Nat → List Char → List Char → List (List Char)
  | _, [], acc => [acc.reverse]
  | 0, s, acc => [acc.reverse ++ s]
  | fuel + 1, c :: rest, acc =>
    if sep.isPrefixOf (c :: rest) then
      acc.reverse :: go_splitCore sep fuel ((c :: rest).drop sep.length) []
    else
      go_splitCore sep fuel rest (c :: acc)

/-- `strings.Split(s, sep)`: with an empty separator Go explodes the string
into single-character pieces; otherwise it splits on every non-overlapping
occurrence of `sep`, leftmost first. -/
def go_split (s sep : String) : List String :=
  if sep = "" then s.toList.map (fun c => String.mk [c])
  else (go_splitCore sep.toList s.toList.length s.toList []).map String.mk

/-- Digit run for `strconv.Atoi`: every character must be an ASCII digit and
there must be at least one. -/
def parseDigits (cs : List Char) : Option Nat :=
  match cs with
  | [] => none
  | _ =>
    cs.foldl
      (fun acc c =>
        acc.bind (fun n => if c.isDigit then some (n * 10 + (c.toNat - 48)) else none))
      (some 0)

/-- `strconv.Atoi`: optional single sign, a non-empty ASCII digit run, and
the 64-bit `int` range check (out-of-range input is an `ErrRange` failure). -/
def go_atoi (s : String) : Option Int :=
  let signed : Option Int :=
    match s.toList with
    | '+' :: rest => (parseDigits rest).map Int.ofNat
    | '-' :: rest => (parseDigits rest).map (fun n => -(n : Int))
    | cs => (parseDigits cs).map Int.ofNat
  signed.bind (fun n => if -(2 ^ 63) ≤ n ∧ n ≤ 2 ^ 63 - 1 then some n else none)

/-- Decimal fragment of `strconv.ParseFloat` (64-bit): optional sign,
digits with an optional fractional part, optional decimal exponent, and the
case-insensitive infinity and NaN spellings. Hexadecimal floats and digit
underscores are not exercised by any property and are omitted. -/
def go_parseFloat (s : String) : Option Float :=
  let mag : List Char → Option Float := fun cs =>
    if (go_toLower (String.mk cs)) ∈ (["inf", "infinity"] : List String) then
      some (1.0 / 0.0)
    else if go_toLower (String.mk cs) = "nan" then
      some (0.0 / 0.0)
    else
      let intPart := cs.takeWhile Char.isDigit
      let rest₁ := cs.dropWhile Char.isDigit
      let fracRest : Option (List Char × List Char) :=
        match rest₁ with
        | '.' :: r => some (r.takeWhile Char.isDigit, r.dropWhile Char.isDigit)
        | r => some ([], r)
      fracRest.bind (fun fr =>
        let fracPart := fr.1
        let rest₂ := fr.2
        if intPart = [] ∧ fracPart = [] then none
        else
          let mantissa := (intPart ++ fracPart).foldl (fun n c => n * 10 + (c.toNat - 48)) 0
          let expo : Option Int :=
            match rest₂ with
            | [] => some 0
            | 'e' :: '+' :: ds => if ds = [] then none else (parseDigits ds).map Int.ofNat
            | 'e' :: '-' :: ds => if ds = [] then none else (parseDigits ds).map (fun n => -(n : Int))
            | 'e' :: ds => (parseDigits ds).map Int.ofNat
            | 'E' :: '+' :: ds => if ds = [] then none else (parseDigits ds).map Int.ofNat
            | 'E' :: '-' :: ds => if ds = [] then none else (parseDigits ds).map (fun n => -(n : Int))
            | 'E' :: ds => (parseDigits ds).map Int.ofNat
            | _ => none
          expo.map (fun e =>
            let net := e - (fracPart.length : Int)
            if net < 0 then OfScientific.ofScientific mantissa true net.natAbs
            else Float.ofNat mantissa * Float.ofNat (10 ^ net.toNat)))
  match s.toList with
  | '+' :: rest => mag rest
  | '-' :: rest => (mag rest).map Float.neg
  | cs => mag cs

/-- `Environment.AsString`: the raw value, or a failure when the key is
absent. -/
def Environment.AsString (env : Environment) (key : String) : Except String String :=
  match lookupEnv env key with
  | none => .error ("environment variable " ++ key ++ " not found")
  | some value => .ok value

/-- `Environment.AsStringOr`: the raw value, or the default when the key is
absent. -/
def Environment.AsStringOr (env : Environment) (key defaultValue : String) : String :=
  match lookupEnv env key with
  | none => defaultValue
  | some value => value

/-- The spellings `AsBool` maps to `true` (the first `switch` arm). -/
def trueSpellings : List String := ["true", "1", "yes", "on", "enable", "enabled"]

/-- The spellings `AsBool` maps to `false` (the second `switch` arm). -/
def falseSpellings : List String := ["false", "0", "no", "off", "disable", "disabled"]

/-- `Environment.AsBool`: lower-case the value and match it against the two
spelling sets; anything else, or a missing key, is a failure. -/
def Environment.AsBool (env : Environment) (key : String) : Except String Bool :=
  match lookupEnv env key with
  | none => .error ("environment variable " ++ key ++ " not found")
  | some value =>
    let lowerValue := go_toLower value
    if lowerValue ∈ trueSpellings then .ok true
    else if lowerValue ∈ falseSpellings then .ok false
    else .error ("could not parse " ++ key ++ " as boolean")

/-- `Environment.AsBoolOr`: as `AsBool`, but a missing key or unrecognized
spelling yields the default. -/
def Environment.AsBoolOr (env : Environment) (key : String) (defaultValue : Bool) : Bool :=
  match lookupEnv env key with
  | none => defaultValue
  | some value =>
    let lowerValue := go_toLower value
    if lowerValue ∈ trueSpellings then true
    else if lowerValue ∈ falseSpellings then false
    else defaultValue

/-- `Environment.AsInt`: `strconv.Atoi` on the value; a missing key or parse
failure is fatal. -/
def Environment.AsInt (env : Environment) (key : String) : Except String Int :=
  match lookupEnv env key with
  | none => .error ("environment variable " ++ key ++ " not found")
  | some value =>
    match go_atoi value with
    | none => .error ("could not parse " ++ key ++ " as integer")
    | some intValue => .ok intValue

/-- `Environment.AsIntOr`: as `AsInt`, but a missing key or parse failure
yields the default. -/
def Environment.AsIntOr (env : Environment) (key : String) (defaultValue : Int) : Int :=
  match lookupEnv env key with
  | none => defaultValue
  | some value =>
    match go_atoi value with
    | none => defaultValue
    | some intValue => intValue

/-- The element loop of `AsIntSlice`: trim each element, parse it with
`strconv.Atoi`, and abort on the first unparsable element. -/
def parseIntElems : List String → Except String (List Int)
  | [] => .ok []
  | e :: rest =>
    match go_atoi (go_trimSpace e) with
    | none => .error ("could not parse " ++ go_trimSpace e ++ " as integer")
    | some n => (parseIntElems rest).map (fun l => n :: l)

/-- `Environment.AsIntSlice`: split the value on the delimiter and parse each
trimmed element as an integer; a missing key or any unparsable element is
fatal. -/
def Environment.AsIntSlice (env : Environment) (key delimiter : String) : Except String (List Int) :=
  match lookupEnv env key with
  | none => .error ("environment variable " ++ key ++ " not found")
  | some value => parseIntElems (go_split value delimiter)

/-- `Environment.AsFloatOr`: `strconv.ParseFloat` on the value; a missing key
or parse failure yields the default. -/
def Environment.AsFloatOr (env : Environment) (key : String) (defaultValue : Float) : Float :=
  match lookupEnv env key with
  | none => defaultValue
  | some value =>
    match go_parseFloat value with
    | none => defaultValue
    | some floatValue => floatValue

/-- `Environment.AsPort`: parse the value as an integer and require it to lie
in 1–65535; a missing key, parse failure, or out-of-range value is fatal. -/
def Environment.AsPort (env : Environment) (key : String) : Except String Int :=
  match lookupEnv env key with
  | none => .error ("environment variable " ++ key ++ " not found")
  | some value =>
    match go_atoi value with
    | none => .error ("could not parse " ++ key ++ " as integer")
    | some intValue =>
      if intValue < 1 ∨ intValue > 65535 then
        .error ("port " ++ key ++ " is out of range (1-65535)")
      else .ok intValue

/-- `Environment.AsPortOr`: an out-of-range default is fatal before the key
is even looked up; otherwise a missing key, parse failure, or out-of-range
value yields the default. -/
def Environment.AsPortOr (env : Environment) (key : String) (defaultPort : Int) :
    Except String Int :=
  if defaultPort < 1 ∨ defaultPort > 65535 then
    .error "default port is out of range (1-65535)"
  else
    match lookupEnv env key with
    | none => .ok defaultPort
    | some value =>
      match go_atoi value with
      | none => .ok defaultPort
      | some intValue =>
        if intValue < 1 ∨ intValue > 65535 then .ok defaultPort
        else .ok intValue

/-- Lexicographic comparison of character lists by code point, the order
`sort.Strings` sorts by (byte-wise comparison of UTF-8 strings orders
exactly as code-point comparison does). -/
def charListLe : List Char → List Char → Bool
  | [], _ => true
  | _ :: _, [] => false
  | a :: as, b :: bs =>
    if a.toNat < b.toNat then true
    else if b.toNat < a.toNat then false
    else charListLe as bs

/-- The string order of `sort.Strings`. -/
def goStrLe (a b : String) : Bool := charListLe a.toList b.toList

/-- `Environment.SortAll`: collect the keys, sort them ascending
(`sort.Strings`), and rebuild the mapping in that key order; `env[k]` for a
key taken from `env` is total, its Go zero-value read embedded as `getD`. -/
def Environment.SortAll (env : Environment) : List (String × String) :=
  let keys := env.map Prod.fst
  let sortedKeys := keys.insertionSort (fun a b => goStrLe a b = true)
  sortedKeys.map (fun k => (k, (lookupEnv env k).getD ""))

/-- Two's-complement wrap of Go's 64-bit signed `int`: every arithmetic
result is reduced into [-2^63, 2^63). -/
def wrap64 (n : Int) : Int := (n + 2 ^ 63) % 2 ^ 64 - 2 ^ 63

/-- The loop of `sequence`: `for i := start; i <= end; i++ { seq[i-start] = i }`
over a pre-allocated slice, with `i - start` and `i + 1` computed in wrapping
int64 arithmetic and an index outside the slice bounds a panic
(`index out of range`). The fuel argument only makes the recursion
structural; `sequence` passes one unit more than the loop can consume, so
the exhaustion branch is unreachable (every int64 input reaches `ok` or a
panic, as `sequence_spec` shows). -/
def seqLoop (start end_ : Int) : Nat → Int → List Int → Except String (List Int)
  | 0, _, _ => .error "out of fuel"
  | fuel + 1, i, seq =>
    if i ≤ end_ then
      if 0 ≤ wrap64 (i - start) ∧ wrap64 (i - start) < (seq.length : Int) then
        seqLoop start end_ fuel (wrap64 (i + 1)) (seq.set (wrap64 (i - start)).toNat i)
      else .error "runtime error: index out of range"
    else .ok seq

/-- `sequence` from environment.go over Go's 64-bit `int`: empty (not an
error) when `start > end`; otherwise `make([]int, end-start+1)` computes the
length in wrapping int64 arithmetic — a negative wrapped length is a
`makeslice` panic — and the loop fills slot `i - start` with `i`. The wrapped
length is written out three times where Go binds it once (same value).
Allocation-size limits of the Go runtime (`maxAlloc`, platform-dependent)
are not modelled: only the architecture-independent int64 semantics are. -/
def sequence (start end_ : Int) : Except String (List Int) :=
  if start > end_ then .ok []
  else if wrap64 (end_ - start + 1) < 0 then .error "makeslice: len out of range"
  else
    seqLoop start end_ ((wrap64 (end_ - start + 1)).toNat + 2) start
      (List.replicate (wrap64 (end_ - start + 1)).toNat 0)

/-- The `base64.StdEncoding` alphabet. -/
def b64Alphabet : List Char :=
  "ABCDEFGHIJKLMNOPQRSTUVWXYZabcdefghijklmnopqrstuvwxyz0123456789+/".toList

/-- Sextet to alphabet character. -/
def b64Char (n : Nat) : Char := b64Alphabet.getD n '='

/-- Alphabet character back to its sextet; `none` for a character outside
the alphabet. -/
def b64Index (c : Char) : Option Nat := b64Alphabet.findIdx? (fun x => x = c)

/-- `base64.StdEncoding.EncodeToString` over the input bytes: each 3-byte
group becomes 4 sextet characters, a trailing 2- or 1-byte group is padded
with `=`. -/
def encB64 : List Nat → List Char
  | a :: b :: c :: rest =>
      b64Char (a / 4) :: b64Char (a % 4 * 16 + b / 16) ::
        b64Char (b % 16 * 4 + c / 64) :: b64Char (c % 64) :: encB64 rest
  | [a, b] => [b64Char (a / 4), b64Char (a % 4 * 16 + b / 16), b64Char (b % 16 * 4), '=']
  | [a] => [b64Char (a / 4), b64Char (a % 4 * 16), '=', '=']
  | [] => []

/-- `base64.StdEncoding.DecodeString`: 4-character groups, `=` padding only
at the very end, any character outside the alphabet or a leftover group is a
failure. Like Go it does not insist the unused trailing bits be zero; Go's
skipping of embedded CR and LF is omitted (no property feeds it any). -/
def decB64 : List Char → Option (List Nat)
  | [] => some []
  | c1 :: c2 :: c3 :: c4 :: rest =>
    match b64Index c1, b64Index c2 with
    | some s1, some s2 =>
      if c3 = '=' then
        if c4 = '=' ∧ rest = [] then some [s1 * 4 + s2 / 16] else none
      else
        match b64Index c3 with
        | some s3 =>
          if c4 = '=' then
            if rest = [] then some [s1 * 4 + s2 / 16, s2 % 16 * 16 + s3 / 4] else none
          else
            match b64Index c4 with
            | some s4 =>
              (decB64 rest).map
                (fun tail =>
                  (s1 * 4 + s2 / 16) :: (s2 % 16 * 16 + s3 / 4) :: (s3 % 4 * 64 + s4) :: tail)
            | none => none
        | none => none
    | _, _ => none
  | _ => none

/-- `base64Encode` from environment.go, the input string as its bytes. -/
def base64Encode (s : List Nat) : String := String.mk (encB64 s)

/-- `base64Decode` from environment.go: a failed decode is fatal. -/
def base64Decode (s : String) : Except String (List Nat) :=
  match decB64 s.toList with
  | none => .error "could not decode base64 string"
  | some decoded => .ok decoded

/-- One execution of a parsed template: the buffer contents accumulated by
`Execute` together with the fatal condition, if any, that aborted it. -/
structure ExecOutcome where
  buffered : String
  failure : Option String

/-- `RenderTemplate` from environment.go, parameterized by the text/template
engine it delegates to: `parse` models `tmpl.Parse` and `execute` models
`parsedTmpl.Execute` writing into the buffer. A parse or execution failure
returns the empty string and a classified error, discarding the buffer;
success returns the full buffered text. -/
def RenderTemplate {PT : Type} (parse : String → Except String PT)
    (execute : PT → Environment → ExecOutcome)
    (templateContent : String) (env : Environment) : String × Option String :=
  match parse templateContent with
  | .error e => ("", some ("error parsing template: " ++ e))
  | .ok parsedTmpl =>
    let outcome := execute parsedTmpl env
    match outcome.failure with
    | some e => ("", some ("error executing template: " ++ e))
    | none => (outcome.buffered, none)

/-- The first step of `strings.SplitN(e, "=", 2)` in `Run`: the part before
the first `=` and the part after it, or `none` when the entry has no `=`
(`SplitN` then yields a single part and the `len(pair) == 2` guard drops
the entry). -/
def splitFirstEq : List Char → Option (List Char × List Char)
  | [] => none
  | c :: rest =>
    if c = '=' then some ([], rest)
    else (splitFirstEq rest).map (fun p => (c :: p.1, p.2))

/-- The environment-construction loop of `Run` in run.go: each `KEY=VALUE`
entry is split on its first `=` and inserted; entries without `=` are
dropped. -/
def buildEnvMap (environ : List String) : Environment :=
  environ.foldl
    (fun envMap e =>
      match splitFirstEq e.toList with
      | some (k, v) => envInsert envMap (String.mk k) (String.mk v)
      | none => envMap)
    []

/-! Theorems. -/

/-- C10: for every key present in the environment — even when its stored
value is the empty string — `AsStringOr` returns the stored value and never
the caller's default; the default is returned exactly when the key is absent
from the mapping. -/
theorem asStringOr_stored_or_default (env : Environment) (key d : String) :
    (∀ v, lookupEnv env key = some v → env.AsStringOr key d = v) ∧
    (lookupEnv env key = none → env.AsStringOr key d = d) := by
  refine ⟨fun v h => ?_, fun h => ?_⟩ <;> simp [Environment.AsStringOr, h]

/-- Witness for `asStringOr_stored_or_default`: a present key with an empty
stored value yields `""`, not the default; an absent key yields the
default. -/
theorem asStringOr_stored_or_default_witness :
    Environment.AsStringOr [("K", "")] "K" "dflt" = "" ∧
    Environment.AsStringOr [("K", "")] "X" "dflt" = "dflt" :=
  ⟨(asStringOr_stored_or_default [("K", "")] "K" "dflt").1 "" rfl,
    (asStringOr_stored_or_default [("K", "")] "X" "dflt").2 rfl⟩

/-- C1 (counterexample): `AsPortOr` with the out-of-range default `0` does
signal failure — on an empty environment and a missing key it returns an
error instead of the caller's default, so the defaulted accessors do not all
"never signal failure". -/
theorem asPortOr_rejects_out_of_range_default :
    Environment.AsPortOr [] "K" 0 = .error "default port is out of range (1-65535)" := rfl

/-- C1 (amended): `AsStringOr`, `AsBoolOr`, `AsIntOr` and `AsFloatOr` never
signal failure — a missing key or malformed value yields exactly the
caller's default — and `AsPortOr` behaves the same way whenever the caller's
default lies in 1–65535 (an out-of-range default instead fails). -/
theorem orAccessors_yield_default (env : Environment) (key : String) :
    (∀ d, lookupEnv env key = none → env.AsStringOr key d = d) ∧
    (∀ d, lookupEnv env key = none → env.AsBoolOr key d = d) ∧
    (∀ v d, lookupEnv env key = some v → go_toLower v ∉ trueSpellings →
      go_toLower v ∉ falseSpellings → env.AsBoolOr key d = d) ∧
    (∀ d, lookupEnv env key = none → env.AsIntOr key d = d) ∧
    (∀ v d, lookupEnv env key = some v → go_atoi v = none → env.AsIntOr key d = d) ∧
    (∀ d, lookupEnv env key = none → env.AsFloatOr key d = d) ∧
    (∀ v d, lookupEnv env key = some v → go_parseFloat v = none → env.AsFloatOr key d = d) ∧
    (∀ d, 1 ≤ d → d ≤ 65535 → lookupEnv env key = none → env.AsPortOr key d = .ok d) ∧
    (∀ v d, 1 ≤ d → d ≤ 65535 → lookupEnv env key = some v → go_atoi v = none →
      env.AsPortOr key d = .ok d) ∧
    (∀ v n d, 1 ≤ d → d ≤ 65535 → lookupEnv env key = some v → go_atoi v = some n →
      (n < 1 ∨ n > 65535) → env.AsPortOr key d = .ok d) := by
  refine ⟨fun d h => ?_, fun d h => ?_, fun v d hv ht hf => ?_, fun d h => ?_,
    fun v d hv hp => ?_, fun d h => ?_, fun v d hv hp => ?_, fun d h1 h2 h => ?_,
    fun v d h1 h2 hv hp => ?_, fun v n d h1 h2 hv hp hr => ?_⟩
  · simp [Environment.AsStringOr, h]
  · simp [Environment.AsBoolOr, h]
  · simp [Environment.AsBoolOr, hv, ht, hf]
  · simp [Environment.AsIntOr, h]
  · simp [Environment.AsIntOr, hv, hp]
  · simp [Environment.AsFloatOr, h]
  · simp [Environment.AsFloatOr, hv, hp]
  · unfold Environment.AsPortOr
    rw [if_neg (by omega)]
    simp [h]
  · unfold Environment.AsPortOr
    rw [if_neg (by omega)]
    simp [hv, hp]
  · unfold Environment.AsPortOr
    rw [if_neg (by omega)]
    simp only [hv, hp]
    rw [if_pos hr]

/-- Witness for `orAccessors_yield_default`: each defaulted accessor
evaluated where its key is missing or its value malformed. -/
theorem orAccessors_yield_default_witness :
    Environment.AsStringOr [] "K" "d" = "d" ∧
    Environment.AsBoolOr [("K", "maybe")] "K" true = true ∧
    Environment.AsIntOr [("K", "x7")] "K" 42 = 42 ∧
    Environment.AsFloatOr [] "K" 1.5 = 1.5 ∧
    Environment.AsPortOr [("K", "99999")] "K" 8080 = .ok 8080 :=
  ⟨(orAccessors_yield_default [] "K").1 "d" rfl,
    (orAccessors_yield_default [("K", "maybe")] "K").2.2.1 "maybe" true rfl
      (by decide) (by decide),
    (orAccessors_yield_default [("K", "x7")] "K").2.2.2.2.1 "x7" 42 rfl (by decide),
    (orAccessors_yield_default [] "K").2.2.2.2.2.1 1.5 rfl,
    (orAccessors_yield_default [("K", "99999")] "K").2.2.2.2.2.2.2.2.2 "99999" 99999 8080
      (by decide) (by decide) rfl (by decide) (by decide)⟩

/-- C3: `AsPort` fails on an unparsable or out-of-range value and returns
the parsed integer otherwise; `AsPortOr` substitutes an in-range default
whenever the key is missing, the value is unparsable, or the value is out of
range, returns the parsed value otherwise, and fails for every environment
and key — even one holding a valid in-range value — when the caller's
default is out of range. -/
theorem asPort_range_spec (env : Environment) (key : String) :
    (∀ v, lookupEnv env key = some v → go_atoi v = none →
      env.AsPort key = .error ("could not parse " ++ key ++ " as integer")) ∧
    (∀ v n, lookupEnv env key = some v → go_atoi v = some n → (n < 1 ∨ n > 65535) →
      env.AsPort key = .error ("port " ++ key ++ " is out of range (1-65535)")) ∧
    (∀ v n, lookupEnv env key = some v → go_atoi v = some n → 1 ≤ n → n ≤ 65535 →
      env.AsPort key = .ok n) ∧
    (lookupEnv env key = none →
      env.AsPort key = .error ("environment variable " ++ key ++ " not found")) ∧
    (∀ d, (d < 1 ∨ d > 65535) →
      env.AsPortOr key d = .error "default port is out of range (1-65535)") ∧
    (∀ d, 1 ≤ d → d ≤ 65535 → lookupEnv env key = none → env.AsPortOr key d = .ok d) ∧
    (∀ v d, 1 ≤ d → d ≤ 65535 → lookupEnv env key = some v → go_atoi v = none →
      env.AsPortOr key d = .ok d) ∧
    (∀ v n d, 1 ≤ d → d ≤ 65535 → lookupEnv env key = some v → go_atoi v = some n →
      (n < 1 ∨ n > 65535) → env.AsPortOr key d = .ok d) ∧
    (∀ v n d, 1 ≤ d → d ≤ 65535 → lookupEnv env key = some v → go_atoi v = some n →
      1 ≤ n → n ≤ 65535 → env.AsPortOr key d = .ok n) := by
  refine ⟨fun v hv hp => ?_, fun v n hv hp hr => ?_, fun v n hv hp h1 h2 => ?_,
    fun h => ?_, fun d hd => ?_, fun d h1 h2 h => ?_, fun v d h1 h2 hv hp => ?_,
    fun v n d h1 h2 hv hp hr => ?_, fun v n d h1 h2 hv hp hn1 hn2 => ?_⟩
  · simp [Environment.AsPort, hv, hp]
  · unfold Environment.AsPort
    simp only [hv, hp]
    rw [if_pos hr]
  · unfold Environment.AsPort
    simp only [hv, hp]
    rw [if_neg (by omega)]
  · simp [Environment.AsPort, h]
  · unfold Environment.AsPortOr
    rw [if_pos hd]
  · unfold Environment.AsPortOr
    rw [if_neg (by omega)]
    simp [h]
  · unfold Environment.AsPortOr
    rw [if_neg (by omega)]
    simp [hv, hp]
  · unfold Environment.AsPortOr
    rw [if_neg (by omega)]
    simp only [hv, hp]
    rw [if_pos hr]
  · unfold Environment.AsPortOr
    rw [if_neg (by omega)]
    simp only [hv, hp]
    rw [if_neg (by omega)]

/-- Witness for `asPort_range_spec`: an out-of-range value fails required
and falls back defaulted; an out-of-range default fails even though the key
holds the valid port 8080; a valid value is returned by both. -/
theorem asPort_range_spec_witness :
    Environment.AsPort [("K", "70000")] "K" = .error "port K is out of range (1-65535)" ∧
    Environment.AsPortOr [("K", "70000")] "K" 8080 = .ok 8080 ∧
    Environment.AsPortOr [("K", "8080")] "K" 0 = .error "default port is out of range (1-65535)" ∧
    Environment.AsPort [("K", "8080")] "K" = .ok 8080 :=
  ⟨(asPort_range_spec [("K", "70000")] "K").2.1 "70000" 70000 rfl (by decide) (by decide),
    (asPort_range_spec [("K", "70000")] "K").2.2.2.2.2.2.2.1 "70000" 70000 8080
      (by decide) (by decide) rfl (by decide) (by decide),
    (asPort_range_spec [("K", "8080")] "K").2.2.2.2.1 0 (by decide),
    (asPort_range_spec [("K", "8080")] "K").2.2.1 "8080" 8080 rfl (by decide)
      (by decide) (by decide)⟩

/-- `wrap64` is the identity on values already in the int64 range. -/
theorem wrap64_eq (x : Int) (h1 : -(2 ^ 63) ≤ x) (h2 : x < 2 ^ 63) : wrap64 x = x := by
  unfold wrap64
  omega

/-- After the loop counter wraps past the maximal int64 (`end = 2^63 - 1`),
the next iteration's index `i - start` wraps to exactly the slice length and
the write panics. -/
theorem seqLoop_wrapPanic (start : Int) (h1 : 1 ≤ start) (h2 : start < 2 ^ 63) :
    ∀ (fuel : Nat) (seq : List Int), 1 ≤ fuel → (seq.length : Int) = 2 ^ 63 - start →
      seqLoop start (2 ^ 63 - 1) fuel (-(2 ^ 63)) seq =
        .error "runtime error: index out of range" := by
  intro fuel seq hfuel hlen
  cases fuel with
  | zero => omega
  | succ f =>
    have hidx : wrap64 (-(2 ^ 63) - start) = 2 ^ 63 - start := by
      unfold wrap64
      omega
    rw [seqLoop, if_pos (by omega : -(2 : Int) ^ 63 ≤ 2 ^ 63 - 1),
      if_neg (by rw [hidx, hlen]; omega)]

/-- The filling loop, started at counter `start + j` with `j` slots already
written: when `end < 2^63 - 1` it terminates with every slot `m ≥ j` holding
`start + m`, and when `end = 2^63 - 1` the counter wraps after the last slot
and the loop panics. -/
theorem seqLoop_fill (start end_ : Int) (hs : start ≤ end_)
    (hstart : -(2 ^ 63) ≤ start) (hend : end_ < 2 ^ 63)
    (hn : end_ - start + 1 < 2 ^ 63) :
    ∀ (fuel : Nat) (j : Nat) (seq : List Int),
      (j : Int) ≤ end_ - start + 1 →
      (seq.length : Int) = end_ - start + 1 →
      end_ - start + 1 - j + 1 ≤ (fuel : Int) →
      (end_ = 2 ^ 63 - 1 → (j : Int) < end_ - start + 1 →
        seqLoop start end_ fuel (start + j) seq =
          .error "runtime error: index out of range") ∧
      (end_ ≠ 2 ^ 63 - 1 →
        ∃ l, seqLoop start end_ fuel (start + j) seq = .ok l ∧ l.length = seq.length ∧
          ∀ m (hm : m < l.length) (hm' : m < seq.length),
            l.get ⟨m, hm⟩ = if m < j then seq.get ⟨m, hm'⟩ else start + (m : Int)) := by
  intro fuel
  induction fuel with
  | zero =>
    intro j seq hj _ hfuel
    exact absurd hfuel (by push_cast; omega)
  | succ f ih =>
    intro j seq hj hlen hfuel
    by_cases hjn : (j : Int) < end_ - start + 1
    · have hile : start + (j : Int) ≤ end_ := by omega
      have hsub : start + (j : Int) - start = (j : Int) := by ring
      have hidx : wrap64 (start + (j : Int) - start) = (j : Int) := by
        rw [hsub, wrap64_eq] <;> omega
      have hbound : 0 ≤ wrap64 (start + (j : Int) - start) ∧
          wrap64 (start + (j : Int) - start) < (seq.length : Int) := by
        rw [hidx, hlen]
        omega
      have htoNat : (wrap64 (start + (j : Int) - start)).toNat = j := by
        rw [hidx]
        omega
      rw [seqLoop, if_pos hile, if_pos hbound, htoNat]
      have hlen' : ((seq.set j (start + (j : Int))).length : Int) = end_ - start + 1 := by
        rw [List.length_set seq j (start + (j : Int))]
        exact hlen
      constructor
      · intro he hlt
        by_cases hlast : (j : Int) + 1 < end_ - start + 1
        · have hwrapi : wrap64 (start + (j : Int) + 1) = start + ((j + 1 : Nat) : Int) := by
            push_cast
            rw [wrap64_eq] <;> omega
          rw [hwrapi]
          exact (ih (j + 1) (seq.set j (start + (j : Int)))
            (by push_cast; omega) hlen' (by push_cast at hfuel ⊢; omega)).1 he
            (by push_cast; omega)
        · have hwrapi : wrap64 (start + (j : Int) + 1) = -(2 ^ 63) := by
            have hsum : start + (j : Int) + 1 = 2 ^ 63 := by omega
            rw [hsum]
            unfold wrap64
            omega
          rw [hwrapi, he]
          apply seqLoop_wrapPanic start (by omega) (by omega) f
            (seq.set j (start + (j : Int))) (by push_cast at hfuel; omega)
          rw [List.length_set seq j (start + (j : Int))]
          omega
      · intro hne
        have hwrapi : wrap64 (start + (j : Int) + 1) = start + ((j + 1 : Nat) : Int) := by
          push_cast
          rw [wrap64_eq] <;> omega
        rw [hwrapi]
        obtain ⟨l, hl, hlenl, helem⟩ := (ih (j + 1) (seq.set j (start + (j : Int)))
          (by push_cast; omega) hlen' (by push_cast at hfuel ⊢; omega)).2 hne
        refine ⟨l, hl, by rw [hlenl, List.length_set seq j (start + (j : Int))], ?_⟩
        intro m hm hm'
        have hmset : m < (seq.set j (start + (j : Int))).length := by
          rw [List.length_set seq j (start + (j : Int))]
          exact hm'
        have hstep := helem m hm hmset
        by_cases hmj : m < j
        · rw [if_pos (by omega)] at hstep
          rw [if_pos hmj, hstep]
          exact List.getElem_set_ne (by omega) hmset
        · by_cases hmj' : m = j
          · subst hmj'
            rw [if_pos (by omega)] at hstep
            rw [if_neg (by omega), hstep]
            exact List.getElem_set_self hmset
          · rw [if_neg (by omega)] at hstep
            rw [if_neg hmj]
            exact hstep
    · have hje : (j : Int) = end_ - start + 1 := by omega
      constructor
      · intro _ hlt
        omega
      · intro _
        refine ⟨seq, by rw [seqLoop, if_neg (by omega)], rfl, ?_⟩
        intro m hm hm'
        rw [if_pos (by omega : m < j)]

/-- C9 (counterexample): at the representable int64 inputs
`start = -2^62`, `end = 2^62` — where `start ≤ end` — the program does not
return the claimed list: the slice length `end - start + 1` wraps negative
in int64 arithmetic and the allocation panics. -/
theorem sequence_overflow_counterexample :
    sequence (-(2 ^ 62)) (2 ^ 62) = .error "makeslice: len out of range" := rfl

/-- C9 (amended): for int64 `start` and `end`: when `start > end`,
`sequence` returns the empty sequence and does not fail; when `start ≤ end`
and the count `end − start + 1` fits in int64 and `end ≠ 2^63 − 1`, it
returns the ordered list of consecutive integers from `start` to `end`
inclusive (length `end − start + 1`, element `i` equal to `start + i`),
disregarding platform allocation limits, which the model does not capture;
otherwise it fails: a count of `2^63` or more wraps so the allocation (or,
at count exactly `2^64`, the first index) panics, and when `end = 2^63 − 1`
the loop counter wraps after the last element and an index panic occurs. -/
theorem sequence_spec (start end_ : Int)
    (hs1 : -(2 ^ 63) ≤ start) (hs2 : start < 2 ^ 63)
    (he1 : -(2 ^ 63) ≤ end_) (he2 : end_ < 2 ^ 63) :
    (start > end_ → sequence start end_ = .ok []) ∧
    (start ≤ end_ → end_ - start + 1 < 2 ^ 63 → end_ ≠ 2 ^ 63 - 1 →
      ∃ l, sequence start end_ = .ok l ∧ (l.length : Int) = end_ - start + 1 ∧
        ∀ i (h : i < l.length), l.get ⟨i, h⟩ = start + (i : Int)) ∧
    (start ≤ end_ → end_ - start + 1 < 2 ^ 63 → end_ = 2 ^ 63 - 1 →
      sequence start end_ = .error "runtime error: index out of range") ∧
    (start ≤ end_ → 2 ^ 63 ≤ end_ - start + 1 → end_ - start + 1 < 2 ^ 64 →
      sequence start end_ = .error "makeslice: len out of range") ∧
    (start = -(2 ^ 63) → end_ = 2 ^ 63 - 1 →
      sequence start end_ = .error "runtime error: index out of range") := by
  refine ⟨fun h => ?_, fun hs hlt hne => ?_, fun hs hlt he => ?_, fun hs hge hlt => ?_,
    fun h1 h2 => ?_⟩
  · rw [sequence, if_pos h]
  · have hw : wrap64 (end_ - start + 1) = end_ - start + 1 := wrap64_eq _ (by omega) (by omega)
    have hnat : ((wrap64 (end_ - start + 1)).toNat : Int) = end_ - start + 1 := by
      rw [hw]
      omega
    rw [sequence, if_neg (by omega), if_neg (by omega)]
    obtain ⟨l, hl, hlenl, helem⟩ :=
      (seqLoop_fill start end_ hs hs1 he2 hlt ((wrap64 (end_ - start + 1)).toNat + 2) 0
        (List.replicate (wrap64 (end_ - start + 1)).toNat 0) (by push_cast; omega)
        (by rw [List.length_replicate]; exact hnat) (by push_cast; omega)).2 hne
    have h0 : start + ((0 : Nat) : Int) = start := by simp
    rw [h0] at hl
    refine ⟨l, hl, ?_, ?_⟩
    · rw [hlenl, List.length_replicate]
      exact hnat
    · intro i h
      have hi' : i < (List.replicate (wrap64 (end_ - start + 1)).toNat (0 : Int)).length := by
        rw [← hlenl]
        exact h
      have := helem i h hi'
      rwa [if_neg (Nat.not_lt_zero i)] at this
  · have hw : wrap64 (end_ - start + 1) = end_ - start + 1 := wrap64_eq _ (by omega) (by omega)
    have hnat : ((wrap64 (end_ - start + 1)).toNat : Int) = end_ - start + 1 := by
      rw [hw]
      omega
    rw [sequence, if_neg (by omega), if_neg (by omega)]
    have h0 : start + ((0 : Nat) : Int) = start := by simp
    have := (seqLoop_fill start end_ hs hs1 he2 hlt ((wrap64 (end_ - start + 1)).toNat + 2) 0
      (List.replicate (wrap64 (end_ - start + 1)).toNat 0) (by push_cast; omega)
      (by rw [List.length_replicate]; exact hnat) (by push_cast; omega)).1 he
      (by push_cast; omega)
    rwa [h0] at this
  · have hwneg : wrap64 (end_ - start + 1) < 0 := by
      unfold wrap64
      omega
    rw [sequence, if_neg (by omega), if_pos hwneg]
  · subst h1
    subst h2
    rfl

/-- Witness for `sequence_spec`: `sequence 1 3` succeeds with the ordered
list `[1, 2, 3]` of the stated length and elements, and `sequence 3 1` is
the empty sequence, not an error. -/
theorem sequence_spec_witness :
    sequence 3 1 = .ok [] ∧
    (∃ l, sequence 1 3 = .ok l ∧ (l.length : Int) = 3 - 1 + 1 ∧
      ∀ i (h : i < l.length), l.get ⟨i, h⟩ = 1 + (i : Int)) ∧
    sequence 1 3 = .ok [1, 2, 3] :=
  ⟨(sequence_spec 3 1 (by omega) (by omega) (by omega) (by omega)).1 (by omega),
    (sequence_spec 1 3 (by omega) (by omega) (by omega) (by omega)).2.1 (by omega)
      (by omega) (by omega),
    rfl⟩

/-- C4: for every template body and environment, `RenderTemplate` either
succeeds with the full buffered output text, or fails — on a parse error or
on a fatal condition raised during execution — with the empty string and a
classified error, never returning partial output. -/
theorem renderTemplate_all_or_nothing {PT : Type} (parse : String → Except String PT)
    (execute : PT → Environment → ExecOutcome) (tc : String) (env : Environment) :
    (∀ e, parse tc = .error e →
      RenderTemplate parse execute tc env = ("", some ("error parsing template: " ++ e))) ∧
    (∀ pt, parse tc = .ok pt → ∀ e, (execute pt env).failure = some e →
      RenderTemplate parse execute tc env = ("", some ("error executing template: " ++ e))) ∧
    (∀ pt, parse tc = .ok pt → (execute pt env).failure = none →
      RenderTemplate parse execute tc env = ((execute pt env).buffered, none)) := by
  refine ⟨fun e h => ?_, fun pt h e hf => ?_, fun pt h hf => ?_⟩
  · simp [RenderTemplate, h]
  · simp [RenderTemplate, h, hf]
  · simp [RenderTemplate, h, hf]

/-- Witness for `renderTemplate_all_or_nothing`: an engine whose execution
buffers the text `"partial"` and then raises a fatal condition makes
`RenderTemplate` return `""` — the partial output is discarded — while the
same buffer without a failure is returned in full. -/
theorem renderTemplate_all_or_nothing_witness :
    RenderTemplate (fun _ => Except.ok ()) (fun _ _ => ⟨"partial", some "boom"⟩) "t" [] =
      ("", some "error executing template: boom") ∧
    RenderTemplate (fun _ => Except.ok ()) (fun _ _ => ⟨"full text", none⟩) "t" [] =
      ("full text", none) :=
  ⟨(renderTemplate_all_or_nothing (fun _ => Except.ok ())
      (fun _ _ => ⟨"partial", some "boom"⟩) "t" []).2.1 () rfl "boom" rfl,
    (renderTemplate_all_or_nothing (fun _ => Except.ok ())
      (fun _ _ => ⟨"full text", none⟩) "t" []).2.2 () rfl rfl⟩

/-- The two boolean spelling sets are disjoint. -/
theorem spellings_disjoint : ∀ s ∈ falseSpellings, s ∉ trueSpellings := by decide

/-- C2: for a key present in the environment, `AsBool` returns `true`
exactly when the lower-cased value is a spelling in
{true, 1, yes, on, enable, enabled}, `false` exactly when it is in
{false, 0, no, off, disable, disabled}, and fails on any other spelling;
`AsBoolOr` returns `true`, `false` or the caller's default respectively, and
both fail resp. default when the key is missing. -/
theorem asBool_spelling_spec (env : Environment) (key : String) :
    (lookupEnv env key = none →
      env.AsBool key = .error ("environment variable " ++ key ++ " not found") ∧
      ∀ d, env.AsBoolOr key d = d) ∧
    (∀ v, lookupEnv env key = some v →
      (env.AsBool key = .ok true ↔ go_toLower v ∈ trueSpellings) ∧
      (env.AsBool key = .ok false ↔ go_toLower v ∈ falseSpellings) ∧
      (go_toLower v ∉ trueSpellings → go_toLower v ∉ falseSpellings →
        env.AsBool key = .error ("could not parse " ++ key ++ " as boolean") ∧
        ∀ d, env.AsBoolOr key d = d) ∧
      (go_toLower v ∈ trueSpellings → ∀ d, env.AsBoolOr key d = true) ∧
      (go_toLower v ∈ falseSpellings → ∀ d, env.AsBoolOr key d = false)) := by
  constructor
  · intro h
    exact ⟨by simp [Environment.AsBool, h], fun d => by simp [Environment.AsBoolOr, h]⟩
  · intro v hv
    refine ⟨?_, ?_, fun ht hf => ?_, fun ht d => ?_, fun hf d => ?_⟩
    · constructor
      · intro h
        by_cases ht : go_toLower v ∈ trueSpellings
        · exact ht
        · by_cases hf : go_toLower v ∈ falseSpellings <;>
            simp [Environment.AsBool, hv, ht, hf] at h
      · intro ht
        simp [Environment.AsBool, hv, ht]
    · constructor
      · intro h
        by_cases ht : go_toLower v ∈ trueSpellings
        · simp [Environment.AsBool, hv, ht] at h
        · by_cases hf : go_toLower v ∈ falseSpellings
          · exact hf
          · simp [Environment.AsBool, hv, ht, hf] at h
      · intro hf
        have ht : go_toLower v ∉ trueSpellings := spellings_disjoint _ hf
        simp [Environment.AsBool, hv, ht, hf]
    · exact ⟨by simp [Environment.AsBool, hv, ht, hf],
        fun d => by simp [Environment.AsBoolOr, hv, ht, hf]⟩
    · simp [Environment.AsBoolOr, hv, ht]
    · have ht : go_toLower v ∉ trueSpellings := spellings_disjoint _ hf
      simp [Environment.AsBoolOr, hv, ht, hf]

/-- Witness for `asBool_spelling_spec`: `"TRuE"`, `"Off"` and `"enabled"`
resolve case-insensitively; `"maybe"` fails required and defaults defaulted;
a missing key does likewise. -/
theorem asBool_spelling_spec_witness :
    Environment.AsBool [("K", "TRuE")] "K" = .ok true ∧
    Environment.AsBool [("K", "Off")] "K" = .ok false ∧
    Environment.AsBoolOr [("K", "enabled")] "K" false = true ∧
    Environment.AsBool [("K", "maybe")] "K" = .error "could not parse K as boolean" ∧
    Environment.AsBoolOr [("K", "maybe")] "K" true = true ∧
    Environment.AsBoolOr [] "K" false = false :=
  ⟨((asBool_spelling_spec [("K", "TRuE")] "K").2 "TRuE" rfl).1.mpr (by decide),
    ((asBool_spelling_spec [("K", "Off")] "K").2 "Off" rfl).2.1.mpr (by decide),
    ((asBool_spelling_spec [("K", "enabled")] "K").2 "enabled" rfl).2.2.2.1 (by decide) false,
    (((asBool_spelling_spec [("K", "maybe")] "K").2 "maybe" rfl).2.2.1 (by decide) (by decide)).1,
    (((asBool_spelling_spec [("K", "maybe")] "K").2 "maybe" rfl).2.2.1 (by decide) (by decide)).2 true,
    ((asBool_spelling_spec [] "K").1 rfl).2 false⟩

/-- A successful `parseIntElems` run returns one integer per element. -/
theorem parseIntElems_ok_length :
    ∀ (es : List String) (l : List Int), parseIntElems es = .ok l → l.length = es.length := by
  intro es
  induction es with
  | nil =>
    intro l h
    simp only [parseIntElems] at h
    simp [← Except.ok.inj h]
  | cons e rest ih =>
    intro l h
    cases he : go_atoi (go_trimSpace e) with
    | none => simp [parseIntElems, he] at h
    | some n =>
      cases hr : parseIntElems rest with
      | error msg => simp [parseIntElems, he, hr, Except.map] at h
      | ok tail =>
        simp only [parseIntElems, he, hr, Except.map] at h
        rw [← Except.ok.inj h]
        simp [ih tail hr]

/-- A successful `parseIntElems` run parses element `i` of the input to
element `i` of the output: the original order is preserved. -/
theorem parseIntElems_ok_get :
    ∀ (es : List String) (l : List Int), parseIntElems es = .ok l →
      ∀ i (hi : i < es.length) (hl : i < l.length),
        go_atoi (go_trimSpace (es.get ⟨i, hi⟩)) = some (l.get ⟨i, hl⟩) := by
  intro es
  induction es with
  | nil => intro l h i hi; cases hi
  | cons e rest ih =>
    intro l h i hi hl
    cases he : go_atoi (go_trimSpace e) with
    | none => simp [parseIntElems, he] at h
    | some n =>
      cases hr : parseIntElems rest with
      | error msg => simp [parseIntElems, he, hr, Except.map] at h
      | ok tail =>
        simp only [parseIntElems, he, hr, Except.map] at h
        have hln : l = n :: tail := (Except.ok.inj h).symm
        subst hln
        cases i with
        | zero => simpa using he
        | succ j =>
          have hj : j < rest.length := by simpa using hi
          have hjl : j < tail.length := by simpa using hl
          simpa using ih tail hr j hj hjl

/-- `parseIntElems` succeeds when every (trimmed) element parses. -/
theorem parseIntElems_ok_of_all :
    ∀ es : List String, (∀ e ∈ es, (go_atoi (go_trimSpace e)).isSome) →
      ∃ l, parseIntElems es = .ok l := by
  intro es
  induction es with
  | nil => intro _; exact ⟨[], rfl⟩
  | cons e rest ih =>
    intro hall
    obtain ⟨n, hn⟩ := Option.isSome_iff_exists.mp (hall e (List.mem_cons_self e rest))
    obtain ⟨tail, htail⟩ := ih (fun x hx => hall x (List.mem_cons_of_mem e hx))
    exact ⟨n :: tail, by simp [parseIntElems, hn, htail, Except.map]⟩

/-- `parseIntElems` fails whenever some (trimmed) element does not parse. -/
theorem parseIntElems_error_of_bad :
    ∀ es : List String, (∃ e ∈ es, go_atoi (go_trimSpace e) = none) →
      ∃ msg, parseIntElems es = .error msg := by
  intro es
  induction es with
  | nil => intro ⟨e, he, _⟩; cases he
  | cons hd tl ih =>
    intro ⟨e, he, hbad⟩
    cases hhd : go_atoi (go_trimSpace hd) with
    | none =>
      exact ⟨"could not parse " ++ go_trimSpace hd ++ " as integer",
        by simp [parseIntElems, hhd]⟩
    | some n =>
      have htl : e ∈ tl := by
        cases List.mem_cons.mp he with
        | inl h => exact absurd hbad (by rw [h, hhd]; simp)
        | inr h => exact h
      obtain ⟨msg, hmsg⟩ := ih ⟨e, htl, hbad⟩
      exact ⟨msg, by simp [parseIntElems, hhd, hmsg, Except.map]⟩

/-- C5: for a key present in the environment, `AsIntSlice` splits the value
on the delimiter and parses each whitespace-trimmed element as a base-10
integer: a successful call returns exactly one integer per element with
element `i` the parse of element `i` of the split (original order); it
succeeds whenever every element parses, and fails entirely — no partial
list — as soon as any single element does not parse. -/
theorem asIntSlice_spec (env : Environment) (key delimiter v : String)
    (hv : lookupEnv env key = some v) :
    (∀ l, env.AsIntSlice key delimiter = .ok l →
      l.length = (go_split v delimiter).length ∧
      ∀ i (hi : i < (go_split v delimiter).length) (hl : i < l.length),
        go_atoi (go_trimSpace ((go_split v delimiter).get ⟨i, hi⟩)) = some (l.get ⟨i, hl⟩)) ∧
    ((∀ e ∈ go_split v delimiter, (go_atoi (go_trimSpace e)).isSome) →
      ∃ l, env.AsIntSlice key delimiter = .ok l) ∧
    ((∃ e ∈ go_split v delimiter, go_atoi (go_trimSpace e) = none) →
      ∃ msg, env.AsIntSlice key delimiter = .error msg) := by
  have hred : env.AsIntSlice key delimiter = parseIntElems (go_split v delimiter) := by
    simp [Environment.AsIntSlice, hv]
  refine ⟨fun l h => ?_, fun hall => ?_, fun hbad => ?_⟩
  · rw [hred] at h
    exact ⟨parseIntElems_ok_length _ l h, parseIntElems_ok_get _ l h⟩
  · rw [hred]
    exact parseIntElems_ok_of_all _ hall
  · rw [hred]
    exact parseIntElems_error_of_bad _ hbad

/-- Witness for `asIntSlice_spec`: `"1,2,3"` split on `","` yields
`[1, 2, 3]`, and `"7, invalid, 9"` fails entirely. -/
theorem asIntSlice_spec_witness :
    Environment.AsIntSlice [("K", "1,2,3")] "K" "," = .ok [1, 2, 3] ∧
    (∃ l, Environment.AsIntSlice [("K", "1,2,3")] "K" "," = .ok l) ∧
    (∃ msg, Environment.AsIntSlice [("K", "7, invalid, 9")] "K" "," = .error msg) :=
  ⟨rfl,
    (asIntSlice_spec [("K", "1,2,3")] "K" "," "1,2,3" rfl).2.1 (by decide),
    (asIntSlice_spec [("K", "7, invalid, 9")] "K" "," "7, invalid, 9" rfl).2.2
      ⟨" invalid", by decide, by decide⟩⟩

/-- A successful `splitFirstEq` result is the part before the first `=` and
the part after it: the input is `k ++ = ++ v` and `k` itself contains no
`=`. -/
theorem splitFirstEq_sound :
    ∀ (cs k v : List Char), splitFirstEq cs = some (k, v) →
      cs = k ++ '=' :: v ∧ '=' ∉ k := by
  intro cs
  induction cs with
  | nil => intro k v h; cases h
  | cons c rest ih =>
    intro k v h
    by_cases hc : c = '='
    · subst hc
      rw [splitFirstEq, if_pos rfl] at h
      simp only [Option.some.injEq, Prod.mk.injEq] at h
      obtain ⟨hk, hv⟩ := h
      subst hk
      subst hv
      simp
    · rw [splitFirstEq, if_neg hc] at h
      cases hr : splitFirstEq rest with
      | none => rw [hr] at h; cases h
      | some p =>
        rw [hr] at h
        obtain ⟨k', v'⟩ := p
        simp only [Option.map, Option.some.injEq, Prod.mk.injEq] at h
        obtain ⟨hk, hv⟩ := h
        obtain ⟨hrest, hnotin⟩ := ih k' v' hr
        subst hv
        rw [← hk, hrest]
        exact ⟨rfl, by simp [hnotin, Ne.symm hc]⟩

/-- An entry without `=` is not split. -/
theorem splitFirstEq_none_of_no_eq :
    ∀ cs : List Char, '=' ∉ cs → splitFirstEq cs = none := by
  intro cs
  induction cs with
  | nil => intro _; rfl
  | cons c rest ih =>
    intro h
    have hc : ¬c = '=' := fun hc => h (by simp [hc])
    rw [splitFirstEq, if_neg hc, ih (fun hr => h (List.mem_cons_of_mem c hr))]
    rfl

/-- Membership after a Go map assignment: a pair of the new mapping is the
assigned pair or one of the old mapping. -/
theorem mem_envInsert :
    ∀ (m : Environment) (k v : String) (p : String × String),
      p ∈ envInsert m k v → p = (k, v) ∨ p ∈ m := by
  intro m k v
  induction m with
  | nil => intro p hp; simpa [envInsert] using hp
  | cons q rest ih =>
    intro p hp
    obtain ⟨k', v'⟩ := q
    by_cases hk : k' = k
    · rw [envInsert, if_pos hk] at hp
      cases List.mem_cons.mp hp with
      | inl h => exact Or.inl h
      | inr h => exact Or.inr (List.mem_cons_of_mem _ h)
    · rw [envInsert, if_neg hk] at hp
      cases List.mem_cons.mp hp with
      | inl h => exact Or.inr (h ▸ List.mem_cons_self _ _)
      | inr h =>
        cases ih p h with
        | inl h' => exact Or.inl h'
        | inr h' => exact Or.inr (List.mem_cons_of_mem _ h')

/-- The assigned key is bound after a Go map assignment. -/
theorem envInsert_self_mem :
    ∀ (m : Environment) (k v : String), ∃ v', (k, v') ∈ envInsert m k v := by
  intro m k v
  induction m with
  | nil => exact ⟨v, List.mem_singleton_self _⟩
  | cons q rest ih =>
    obtain ⟨k', v'⟩ := q
    by_cases hk : k' = k
    · exact ⟨v, by rw [envInsert, if_pos hk]; exact List.mem_cons_self _ _⟩
    · obtain ⟨w, hw⟩ := ih
      exact ⟨w, by rw [envInsert, if_neg hk]; exact List.mem_cons_of_mem _ hw⟩

/-- A Go map assignment preserves every bound key. -/
theorem envInsert_preserves_key :
    ∀ (m : Environment) (k v k0 : String), (∃ v', (k0, v') ∈ m) →
      ∃ v', (k0, v') ∈ envInsert m k v := by
  intro m k v
  induction m with
  | nil => intro k0 ⟨v', h⟩; cases h
  | cons q rest ih =>
    intro k0 ⟨v', hv'⟩
    obtain ⟨k', w⟩ := q
    by_cases hk : k' = k
    · rw [envInsert, if_pos hk]
      cases List.mem_cons.mp hv' with
      | inl h =>
        obtain ⟨h1, _⟩ := Prod.mk.injEq .. ▸ h
        exact ⟨v, by rw [h1, ← hk]; exact List.mem_cons_self _ _⟩
      | inr h => exact ⟨v', List.mem_cons_of_mem _ h⟩
    · rw [envInsert, if_neg hk]
      cases List.mem_cons.mp hv' with
      | inl h => exact ⟨v', h ▸ List.mem_cons_self _ _⟩
      | inr h =>
        obtain ⟨w', hw'⟩ := ih k0 ⟨v', h⟩
        exact ⟨w', List.mem_cons_of_mem _ hw'⟩

/-- Every pair of the folded map is a pair of the accumulator or comes from
some entry of the remaining list, split at its first `=`. -/
theorem buildEnvMap_go_mem :
    ∀ (environ : List String) (acc : Environment) (p : String × String),
      p ∈ environ.foldl
        (fun envMap e =>
          match splitFirstEq e.toList with
          | some (k, v) => envInsert envMap (String.mk k) (String.mk v)
          | none => envMap) acc →
      p ∈ acc ∨ ∃ e ∈ environ, splitFirstEq e.toList = some (p.1.toList, p.2.toList) := by
  intro environ
  induction environ with
  | nil => intro acc p hp; exact Or.inl hp
  | cons e es ih =>
    intro acc p hp
    rw [List.foldl_cons] at hp
    cases ih _ p hp with
    | inr h =>
      obtain ⟨e', he', hs⟩ := h
      exact Or.inr ⟨e', List.mem_cons_of_mem _ he', hs⟩
    | inl h =>
      cases hs : splitFirstEq e.toList with
      | none => rw [hs] at h; exact Or.inl h
      | some q =>
        obtain ⟨k, v⟩ := q
        rw [hs] at h
        cases mem_envInsert _ _ _ _ h with
        | inl hp' =>
          refine Or.inr ⟨e, List.mem_cons_self _ _, ?_⟩
          rw [hs, hp']
          rfl
        | inr hp' => exact Or.inl hp'

/-- Every key inserted by the fold, and every key of the accumulator, is
bound in the folded map. -/
theorem buildEnvMap_go_key :
    ∀ (environ : List String) (acc : Environment),
      (∀ k, (∃ v', (k, v') ∈ acc) →
        ∃ v', (k, v') ∈ environ.foldl
          (fun envMap e =>
            match splitFirstEq e.toList with
            | some (k, v) => envInsert envMap (String.mk k) (String.mk v)
            | none => envMap) acc) ∧
      (∀ e ∈ environ, ∀ k v, splitFirstEq e.toList = some (k, v) →
        ∃ v', (String.mk k, v') ∈ environ.foldl
          (fun envMap e =>
            match splitFirstEq e.toList with
            | some (k, v) => envInsert envMap (String.mk k) (String.mk v)
            | none => envMap) acc) := by
  intro environ
  induction environ with
  | nil => exact fun acc => ⟨fun k h => h, fun e he => absurd he (List.not_mem_nil e)⟩
  | cons e es ih =>
    intro acc
    constructor
    · intro k hk
      rw [List.foldl_cons]
      apply (ih _).1 k
      cases hs : splitFirstEq e.toList with
      | none => exact hk
      | some q => exact envInsert_preserves_key _ _ _ _ hk
    · intro e' he' k v hs'
      rw [List.foldl_cons]
      cases List.mem_cons.mp he' with
      | inl he =>
        rw [he] at hs'
        apply (ih _).1 (String.mk k)
        rw [hs']
        exact envInsert_self_mem _ _ _
      | inr he => exact (ih _).2 e' he k v hs'

/-- C7 (counterexample): the claim also asserts every key of the resulting
mapping is non-empty, yet the entry `"=x"` — which does contain `=` and is
therefore retained — maps the empty key to `"x"`. -/
theorem buildEnvMap_empty_key_counterexample :
    ∃ p ∈ buildEnvMap ["=x"], p.1 = "" :=
  ⟨("", "x"), by decide, rfl⟩

/-- C7 (amended): the Environment is built from the `KEY=VALUE` list:
entries without `=` are silently dropped, every pair of the mapping comes
from a retained entry split at its first `=` (part before the first `=`,
which may be empty, mapped to the part after it), and every retained
entry's key is bound in the mapping. -/
theorem buildEnvMap_spec (environ : List String) :
    (∀ p : String × String, p ∈ buildEnvMap environ →
      ∃ e ∈ environ, e.toList = p.1.toList ++ '=' :: p.2.toList ∧ '=' ∉ p.1.toList) ∧
    (∀ e ∈ environ, ∀ k v : List Char, splitFirstEq e.toList = some (k, v) →
      ∃ v', (String.mk k, v') ∈ buildEnvMap environ) ∧
    (∀ e ∈ environ, '=' ∉ e.toList → splitFirstEq e.toList = none) := by
  refine ⟨fun p hp => ?_, fun e he k v hs => ?_, fun e _ hno => ?_⟩
  · cases buildEnvMap_go_mem environ [] p hp with
    | inl h => cases h
    | inr h =>
      obtain ⟨e, he, hs⟩ := h
      obtain ⟨heq, hnotin⟩ := splitFirstEq_sound _ _ _ hs
      exact ⟨e, he, heq, hnotin⟩
  · exact (buildEnvMap_go_key environ []).2 e he k v hs
  · exact splitFirstEq_none_of_no_eq _ hno

/-- Witness for `buildEnvMap_spec`: `NAME=World` is retained with key
`NAME`, the entry `BAD` is dropped, and `A=b=c` splits at its first `=`. -/
theorem buildEnvMap_spec_witness :
    buildEnvMap ["NAME=World", "BAD", "A=b=c"] = [("NAME", "World"), ("A", "b=c")] ∧
    (∃ e ∈ ["NAME=World", "BAD", "A=b=c"],
      e.toList = ("NAME" : String).toList ++ '=' :: ("World" : String).toList ∧
        '=' ∉ ("NAME" : String).toList) ∧
    (∃ v', (String.mk ("A" : String).toList, v') ∈ buildEnvMap ["NAME=World", "BAD", "A=b=c"]) :=
  ⟨by decide,
    (buildEnvMap_spec ["NAME=World", "BAD", "A=b=c"]).1 ("NAME", "World") (by decide),
    (buildEnvMap_spec ["NAME=World", "BAD", "A=b=c"]).2.1 "A=b=c" (by decide)
      ("A" : String).toList ("b=c" : String).toList (by decide)⟩

/-- `charListLe` is total. -/
theorem charListLe_total : ∀ as bs : List Char, charListLe as bs = true ∨ charListLe bs as = true := by
  intro as
  induction as with
  | nil => intro bs; left; rfl
  | cons a as ih =>
    intro bs
    cases bs with
    | nil => right; rfl
    | cons b bs =>
      by_cases h1 : a.toNat < b.toNat
      · left; simp [charListLe, h1]
      · by_cases h2 : b.toNat < a.toNat
        · right; simp [charListLe, h2]
        · rcases ih bs with h | h
          · left; simp [charListLe, h1, h2, h]
          · right; simp [charListLe, h1, h2, h]

/-- `charListLe` is transitive. -/
theorem charListLe_trans :
    ∀ as bs cs : List Char, charListLe as bs = true → charListLe bs cs = true →
      charListLe as cs = true := by
  intro as
  induction as with
  | nil => intro bs cs _ _; rfl
  | cons a as ih =>
    intro bs cs h1 h2
    cases bs with
    | nil => simp [charListLe] at h1
    | cons b bs =>
      cases cs with
      | nil => simp [charListLe] at h2
      | cons c cs =>
        by_cases hab : a.toNat < b.toNat
        · by_cases hbc : b.toNat < c.toNat
          · simp [charListLe, show a.toNat < c.toNat by omega]
          · by_cases hcb : c.toNat < b.toNat
            · simp [charListLe, hbc, hcb] at h2
            · simp [charListLe, show a.toNat < c.toNat by omega]
        · by_cases hba : b.toNat < a.toNat
          · simp [charListLe, hab, hba] at h1
          · simp only [charListLe, if_neg hab, if_neg hba] at h1
            by_cases hbc : b.toNat < c.toNat
            · simp [charListLe, show a.toNat < c.toNat by omega]
            · by_cases hcb : c.toNat < b.toNat
              · simp [charListLe, hbc, hcb] at h2
              · simp only [charListLe, if_neg hbc, if_neg hcb] at h2
                simp only [charListLe, if_neg (show ¬a.toNat < c.toNat by omega),
                  if_neg (show ¬c.toNat < a.toNat by omega)]
                exact ih bs cs h1 h2

/-- In a mapping with pairwise-distinct keys, lookup of a bound key returns
its bound value. -/
theorem lookupEnv_of_mem :
    ∀ env : Environment, (env.map Prod.fst).Nodup →
      ∀ k v : String, (k, v) ∈ env → lookupEnv env k = some v := by
  intro env
  induction env with
  | nil => intro _ k v h; cases h
  | cons q rest ih =>
    intro hnd k v h
    obtain ⟨k', v'⟩ := q
    rw [List.map_cons, List.nodup_cons] at hnd
    obtain ⟨hknotin, hndrest⟩ := hnd
    by_cases hk : k' = k
    · subst hk
      rw [lookupEnv, if_pos rfl]
      cases List.mem_cons.mp h with
      | inl heq =>
        simp only [Prod.mk.injEq] at heq
        rw [heq.2]
      | inr hmem =>
        exact absurd (List.mem_map_of_mem Prod.fst hmem) hknotin
    · rw [lookupEnv, if_neg hk]
      apply ih hndrest
      cases List.mem_cons.mp h with
      | inl heq =>
        simp only [Prod.mk.injEq] at heq
        exact absurd heq.1.symm hk
      | inr hmem => exact hmem

/-- C8: for an environment with pairwise-distinct keys (the Go map
invariant), `SortAll` returns a mapping containing exactly the same
key→value pairs — a permutation of the environment — with its keys in
ascending lexical order. -/
theorem sortAll_spec (env : Environment) (hnd : (env.map Prod.fst).Nodup) :
    env.SortAll.Perm env ∧
    List.Sorted (fun a b => goStrLe a b = true) (env.SortAll.map Prod.fst) := by
  haveI htot : IsTotal String (fun a b => goStrLe a b = true) :=
    ⟨fun a b => charListLe_total a.toList b.toList⟩
  haveI htrans : IsTrans String (fun a b => goStrLe a b = true) :=
    ⟨fun a b c => charListLe_trans a.toList b.toList c.toList⟩
  have hfix : env.map
      ((fun k => (k, (lookupEnv env k).getD "")) ∘ Prod.fst) = env := by
    have hpt : ∀ p ∈ env,
        ((fun k => (k, (lookupEnv env k).getD "")) ∘ Prod.fst) p = id p := by
      intro p hp
      obtain ⟨k, v⟩ := p
      simp [lookupEnv_of_mem env hnd k v hp]
    rw [List.map_congr_left hpt, List.map_id]
  constructor
  · have h1 : env.SortAll.Perm
        ((env.map Prod.fst).map (fun k => (k, (lookupEnv env k).getD ""))) :=
      (List.perm_insertionSort _ _).map _
    have h2 : (env.map Prod.fst).map (fun k => (k, (lookupEnv env k).getD "")) = env := by
      rw [List.map_map]
      exact hfix
    rw [h2] at h1
    exact h1
  · have hkeys : env.SortAll.map Prod.fst =
        (env.map Prod.fst).insertionSort (fun a b => goStrLe a b = true) := by
      show (((env.map Prod.fst).insertionSort
        (fun a b => goStrLe a b = true)).map fun k => (k, (lookupEnv env k).getD "")).map
          Prod.fst = _
      rw [List.map_map]
      exact List.map_id _
    rw [hkeys]
    exact List.sorted_insertionSort _ _

/-- Witness for `sortAll_spec`: a two-entry environment with distinct keys
is rearranged into ascending key order with the same pairs. -/
theorem sortAll_spec_witness :
    Environment.SortAll [("B", "2"), ("A", "1")] = [("A", "1"), ("B", "2")] ∧
    (Environment.SortAll [("B", "2"), ("A", "1")]).Perm [("B", "2"), ("A", "1")] ∧
    List.Sorted (fun a b => goStrLe a b = true)
      ((Environment.SortAll [("B", "2"), ("A", "1")]).map Prod.fst) :=
  ⟨by decide,
    (sortAll_spec [("B", "2"), ("A", "1")] (by decide)).1,
    (sortAll_spec [("B", "2"), ("A", "1")] (by decide)).2⟩

/-- Decoding an alphabet character recovers its sextet. -/
theorem b64Index_b64Char : ∀ n, n < 64 → b64Index (b64Char n) = some n := by decide

/-- No alphabet character is the padding character. -/
theorem b64Char_ne_pad : ∀ n, n < 64 → b64Char n ≠ '=' := by decide

/-- Decoding inverts encoding on every byte list. -/
theorem decB64_encB64 :
    ∀ bs : List Nat, (∀ b ∈ bs, b < 256) → decB64 (encB64 bs) = some bs := by
  intro bs
  induction bs using encB64.induct with
  | case1 a b c rest ih =>
    intro hb
    have ha : a < 256 := hb a (by simp)
    have hbb : b < 256 := hb b (by simp)
    have hc : c < 256 := hb c (by simp)
    have hrest : ∀ x ∈ rest, x < 256 := fun x hx => hb x (by simp [hx])
    have e1 := b64Index_b64Char (a / 4) (by omega)
    have e2 := b64Index_b64Char (a % 4 * 16 + b / 16) (by omega)
    have e3 := b64Index_b64Char (b % 16 * 4 + c / 64) (by omega)
    have e4 := b64Index_b64Char (c % 64) (by omega)
    have ne3 := b64Char_ne_pad (b % 16 * 4 + c / 64) (by omega)
    have ne4 := b64Char_ne_pad (c % 64) (by omega)
    rw [encB64, decB64, e1, e2]
    simp only [if_neg ne3, e3, if_neg ne4, e4, ih hrest, Option.map]
    have g1 : a / 4 * 4 + (a % 4 * 16 + b / 16) / 16 = a := by omega
    have g2 : (a % 4 * 16 + b / 16) % 16 * 16 + (b % 16 * 4 + c / 64) / 4 = b := by omega
    have g3 : (b % 16 * 4 + c / 64) % 4 * 64 + c % 64 = c := by omega
    rw [g1, g2, g3]
  | case2 a b =>
    intro hb
    have ha : a < 256 := hb a (by simp)
    have hbb : b < 256 := hb b (by simp)
    have e1 := b64Index_b64Char (a / 4) (by omega)
    have e2 := b64Index_b64Char (a % 4 * 16 + b / 16) (by omega)
    have e3 := b64Index_b64Char (b % 16 * 4) (by omega)
    have ne3 := b64Char_ne_pad (b % 16 * 4) (by omega)
    rw [encB64, decB64, e1, e2]
    simp only [if_neg ne3, e3, if_pos rfl]
    have g1 : a / 4 * 4 + (a % 4 * 16 + b / 16) / 16 = a := by omega
    have g2 : (a % 4 * 16 + b / 16) % 16 * 16 + b % 16 * 4 / 4 = b := by omega
    simp [g1, g2]
    omega
  | case3 a =>
    intro hb
    have ha : a < 256 := hb a (by simp)
    have e1 := b64Index_b64Char (a / 4) (by omega)
    have e2 := b64Index_b64Char (a % 4 * 16) (by omega)
    rw [encB64, decB64, e1, e2]
    have g1 : a / 4 * 4 + a % 4 * 16 / 16 = a := by omega
    simp [g1]
    omega
  | case4 =>
    intro _
    rfl

/-- C6: `base64Decode` inverts `base64Encode` on every byte string
(round-trip law); `base64Encode` is a total function that never fails, and
every `base64Decode` call either succeeds or fails carrying the decode
diagnostic. -/
theorem base64_roundtrip (bs : List Nat) (h : ∀ b ∈ bs, b < 256) (s : String) :
    base64Decode (base64Encode bs) = .ok bs ∧
    ((∃ ds, base64Decode s = .ok ds) ∨
      base64Decode s = .error "could not decode base64 string") := by
  constructor
  · unfold base64Encode base64Decode
    have hmk : (String.mk (encB64 bs)).toList = encB64 bs := rfl
    rw [hmk, decB64_encB64 bs h]
  · cases hd : decB64 s.toList with
    | none => exact Or.inr (by unfold base64Decode; rw [hd])
    | some ds => exact Or.inl ⟨ds, by unfold base64Decode; rw [hd]⟩

/-- Witness for `base64_roundtrip`: the bytes of `"hello"` survive the
round trip, and the non-base64 string `"!"` fails to decode. -/
theorem base64_roundtrip_witness :
    base64Decode (base64Encode [104, 101, 108, 108, 111]) = .ok [104, 101, 108, 108, 111] ∧
    base64Encode [104, 101, 108, 108, 111] = "aGVsbG8=" ∧
    base64Decode "!" = .error "could not decode base64 string" :=
  ⟨(base64_roundtrip [104, 101, 108, 108, 111] (by decide) "!").1, by decide, rfl⟩

end Zep
